import Mathlib

/-!
# Verification of `cli_speeder` (src/src/cli_speeder/core.py)

Shallow embedding of the lazy-import library:

* `_LazyProxy` — a deferred reference wrapping a zero-argument resolver
  (`_loader_func`) and a cached target slot (`_target`, Python `None` when
  unresolved).  Python values returned by the resolver are modelled as
  `Option V`: `none` is Python's `None`, `some v` any other value.  The cached
  slot `_target : Option V` therefore doubles as the state: `none` =
  `Unresolved`, `some v` = `Resolved v`, exactly as in the source where the
  single sentinel `None` plays both roles.  To reason about how many times the
  resolver is invoked, the resolver is modelled as a function of the
  invocation index (`_loader_func k` = outcome of its `k`-th invocation,
  either a raised exception `.error e` or a returned value `.ok t`), and the
  proxy carries an instrumentation counter `calls` of invocations so far.
  The Python methods mutate `self`; here each operation returns the new proxy.

* `_LazyFinder` — the meta-path interceptor: a watched-name set `names`, a
  recursion-guard set `_skip`, and `find_spec`, which delegates to the other
  entries of `sys.meta_path`.  External finders are opaque: each maps a
  requested full name to an outcome (spec found / `None` returned / exception
  raised / no `find_spec` attribute).  The `path`/`target` hints of the real
  signature are forwarded unchanged by the source and do not influence the
  interceptor's own logic, so they are folded into the opaque behaviour.

* `speed_up_modules` — the registry: process-wide state is the optional
  installed finder plus `sys.meta_path`, modelled as an explicit `Registry`
  record threaded through calls.
-/

set_option autoImplicit false

namespace CliSpeeder

/-! ## `_LazyProxy` -/

/-- The deferred reference of `core.py`.  `E` is the type of exceptions the
resolver may raise, `V` the type of non-`None` Python values it may return.
`_loader_func k` gives the outcome of the resolver's `k`-th invocation;
`_target` is the cached slot (`none` = Python `None` = unresolved);
`calls` counts resolver invocations performed so far (instrumentation). -/
structure LazyProxy (E V : Type) where
  loader_func : Nat → Except E (Option V)
  target : Option V
  calls : Nat

namespace LazyProxy

variable {E V : Type}

/-- The non-eager part of `_LazyProxy.__init__`: store the loader, set the
cached slot to `None`. -/
def init (f : Nat → Except E (Option V)) : LazyProxy E V :=
  { loader_func := f, target := none, calls := 0 }

/-- `_LazyProxy._ensure_loaded`: if the cached slot holds `None`, invoke the
resolver (recording the invocation); on a normal return store the result in
the slot; a raised exception propagates and nothing is stored.  Returns the
value of `self._target` after the (attempted) load, plus the new state. -/
def ensureLoaded (p : LazyProxy E V) : Except E (Option V) × LazyProxy E V :=
  match p.target with
  | some t => (.ok (some t), p)
  | none =>
    match p.loader_func p.calls with
    | .error e => (.error e, { p with calls := p.calls + 1 })
    | .ok t => (.ok t, { p with target := t, calls := p.calls + 1 })

/-- The value returned (or exception raised) by one forcing operation. -/
def forceResult (p : LazyProxy E V) : Except E (Option V) :=
  (p.ensureLoaded).1

/-- The state after `n` successive forcing operations. -/
def forceTimes (p : LazyProxy E V) : Nat → LazyProxy E V
  | 0 => p
  | n + 1 => ((p.ensureLoaded).2).forceTimes n

/-- The sentinel text of `_LazyProxy.__repr__` for an unresolved reference. -/
def sentinel : String := "<LazyProxy (not loaded)>"

/-- `_LazyProxy.__repr__`: the body contains no call to `_ensure_loaded` and
assigns nothing, so it is modelled as returning the rendered text together
with the (unchanged) proxy.  `reprV` models Python `repr` on resolved
targets. -/
def reprOp (reprV : V → String) (p : LazyProxy E V) : String × LazyProxy E V :=
  (match p.target with
   | none => sentinel
   | some t => reprV t, p)

/-- `_LazyProxy.__str__`: falls back to `__repr__` while the cached slot holds
`None`, otherwise renders the target with `str`.  Like `__repr__` it never
calls `_ensure_loaded`. -/
def strOp (reprV strV : V → String) (p : LazyProxy E V) : String × LazyProxy E V :=
  (match p.target with
   | none => (p.reprOp reprV).1
   | some t => strV t, p)

/-- `_LazyProxy.__init__` in full: the eager-mode test re-reads
`os.environ.get("CLI_SPEEDER_EAGER", "0") == "1"` at construction time, so the
construction takes the environment value current at that moment (`env` =
`os.environ.get("CLI_SPEEDER_EAGER")`, `none` when unset).  When the flag is
set, `_ensure_loaded` runs inside `__init__` and a raised exception escapes
the constructor. -/
def construct (env : Option String) (f : Nat → Except E (Option V)) :
    Except E (LazyProxy E V) :=
  let p := init f
  if env.getD "0" = "1" then
    match p.ensureLoaded with
    | (.error e, _) => .error e
    | (.ok _, p') => .ok p'
  else
    .ok p

/-- Module-level `_EAGER_MODE` (line 9 of `core.py`): computed from the
environment at process start.  Note `_LazyProxy.__init__` does not read this
constant; it re-reads the environment itself. -/
def EAGER_MODE (envAtStart : Option String) : Bool :=
  envAtStart.getD "0" = "1"

theorem ensureLoaded_of_resolved (p : LazyProxy E V) (v : V) (h : p.target = some v) :
    p.ensureLoaded = (.ok (some v), p) := by
  unfold ensureLoaded
  rw [h]

theorem forceTimes_of_resolved (p : LazyProxy E V) (v : V) (h : p.target = some v) :
    ∀ n, p.forceTimes n = p := by
  intro n
  induction n with
  | zero => rfl
  | succ n ih =>
    unfold forceTimes
    rw [ensureLoaded_of_resolved p v h]
    exact ih

end LazyProxy

/-! ## `_LazyFinder` (the interceptor) and `sys.meta_path` -/

/-- Exceptions that can escape a finder's `find_spec`.  `core.py` singles out
`ImportError` (`except ImportError: continue`); everything else is `other`. -/
inductive PyExc where
  | importError
  | other (msg : String)
deriving DecidableEq, Repr

/-- A module loader.  `importlib.util.LazyLoader(inner)` wraps a loader; the
source tests `isinstance(spec.loader, importlib.util.LazyLoader)`. -/
inductive Loader where
  | plain (id : Nat)
  | lazyLoader (inner : Loader)
deriving DecidableEq, Repr

/-- `isinstance(l, importlib.util.LazyLoader)`. -/
def Loader.isLazy : Loader → Bool
  | .lazyLoader _ => true
  | .plain _ => false

/-- A module spec: the `loader` attribute may be `None` (falsy). -/
structure Spec where
  loader : Option Loader
deriving DecidableEq, Repr

/-- The outcome of calling `find_spec` on an external (non-`_LazyFinder`)
meta-path entry for a given full name. -/
inductive FindOutcome where
  | found (s : Spec)
  | notFound
  | raises (e : PyExc)
  | noFindSpec
deriving DecidableEq, Repr

/-- An external finder on `sys.meta_path`, opaque except for its per-name
outcome (the `path`/`target` hints are forwarded unchanged by the source and
folded into this behaviour). -/
structure ExtFinder where
  behavior : String → FindOutcome

/-- An entry of `sys.meta_path`: either the installed `_LazyFinder` itself
(skipped by the `finder is self` test) or an external finder. -/
inductive MetaPathEntry where
  | selfFinder
  | ext (f : ExtFinder)

/-- State of a `_LazyFinder`: the watched top-level names (`self.names`,
built by `set(names)`) and the recursion guard set (`self._skip`). -/
structure LazyFinder where
  names : Finset String
  skip : Finset String

/-- `fullname.split(".")[0]` — the top-level segment of a dotted name: the
prefix of the string before the first `.` (the whole string when it has no
dot), stated over the character list so that it evaluates by reduction. -/
def rootPkg (fullname : String) : String :=
  String.mk (fullname.data.takeWhile (fun c => c != '.'))

/-- The delegation loop of `find_spec`: iterate `sys.meta_path` in order,
skipping `self` and entries without a `find_spec` attribute; the first spec
returned wins; a finder returning `None` means "keep looking"; an
`ImportError` raised by a finder is swallowed (`continue`); any other
exception escapes the loop. -/
def delegate (entries : List MetaPathEntry) (fullname : String) :
    Except PyExc (Option Spec) :=
  match entries with
  | [] => .ok none
  | .selfFinder :: rest => delegate rest fullname
  | .ext f :: rest =>
    match f.behavior fullname with
    | .found s => .ok (some s)
    | .notFound => delegate rest fullname
    | .noFindSpec => delegate rest fullname
    | .raises .importError => delegate rest fullname
    | .raises (.other m) => .error (.other m)

/-- The wrapping step of `find_spec`: `if spec.loader and not
isinstance(spec.loader, LazyLoader): spec.loader = LazyLoader(spec.loader)`. -/
def wrapSpec (s : Spec) : Spec :=
  match s.loader with
  | some l => if l.isLazy then s else { s with loader := some (.lazyLoader l) }
  | none => s

/-- `_LazyFinder.find_spec`.  Returns the Python result (`None` = "not
handled", a spec, or a propagating exception) together with the finder's new
state.  The `try`/`finally` discarding the guard is modelled by performing
the `erase` on every branch after the guard was inserted. -/
def LazyFinder.find_spec (lf : LazyFinder) (metaPath : List MetaPathEntry)
    (fullname : String) : Except PyExc (Option Spec) × LazyFinder :=
  if rootPkg fullname ∉ lf.names then
    (.ok none, lf)
  else if fullname ∈ lf.skip then
    (.ok none, lf)
  else
    let lf1 : LazyFinder := { lf with skip := insert fullname lf.skip }
    let lf2 : LazyFinder := { lf1 with skip := lf1.skip.erase fullname }
    match delegate metaPath fullname with
    | .error e => (.error e, lf2)
    | .ok none => (.ok none, lf2)
    | .ok (some s) => (.ok (some (wrapSpec s)), lf2)

/-! ## Registry (`_INSTALLED_FINDER` / `speed_up_modules`) -/

/-- The process-wide state mutated by `speed_up_modules`: the global
`_INSTALLED_FINDER` and `sys.meta_path`. -/
structure Registry where
  installed : Option LazyFinder
  metaPath : List MetaPathEntry

/-- The hard-coded denylist in `speed_up_modules`. -/
def unsafeSet : Finset String := {"numpy", "torch", "pydantic"}

/-- `speed_up_modules(modules)`: filter the denylist out silently; on first
call build a `_LazyFinder` seeded with the filtered names and insert it at
the front of `sys.meta_path`; afterwards merge the filtered names into the
installed finder's set. -/
def speed_up_modules (st : Registry) (modules : List String) : Registry :=
  let safe_modules := modules.filter (fun m => decide (m ∉ unsafeSet))
  match st.installed with
  | none =>
    let f : LazyFinder := { names := safe_modules.toFinset, skip := ∅ }
    { installed := some f, metaPath := .selfFinder :: st.metaPath }
  | some f =>
    { st with installed := some { f with names := f.names ∪ safe_modules.toFinset } }

/-- A sequence of `speed_up_modules` calls in one process. -/
def registerAll (st : Registry) : List (List String) → Registry
  | [] => st
  | ms :: rest => registerAll (speed_up_modules st ms) rest

/-- The currently watched name set (empty before any installation). -/
def watchedOf (st : Registry) : Finset String :=
  match st.installed with
  | none => ∅
  | some f => f.names

/-! ## Claim theorems: the deferred reference -/

/-- A resolver that succeeds on every invocation, returning Python `None`. -/
def noneResolver : Nat → Except Unit (Option Nat) := fun _ => .ok none

/-- A resolver that succeeds on every invocation with the non-`None` value 7. -/
def sevenResolver : Nat → Except Unit (Option Nat) := fun _ => .ok (some 7)

/-- Claim C1, counterexample: a resolver that returns Python `None` succeeds
(never raises), yet forcing the reference twice invokes it twice — `None` is
also the unresolved sentinel, so the result is never cached.  This refutes
"forcing N>1 times invokes the resolver exactly once" as stated for every
succeeding resolver. -/
theorem force_once_counterexample :
    ((LazyProxy.init noneResolver).forceTimes 2).calls = 2 ∧
    ((LazyProxy.init noneResolver).forceTimes 2).calls ≠ 1 := by
  constructor
  · rfl
  · decide

/-- Claim C1 (amended): for every deferred reference whose resolver succeeds
with a non-`None` result, forcing the reference `N > 1` times sequentially
invokes the resolver exactly once (on the first force); every force returns
the cached result, equal to the first, with no re-invocation. -/
theorem force_once_on_nonNone_success {E V : Type}
    (f : Nat → Except E (Option V)) (v : V) (hf : f 0 = .ok (some v))
    (N : Nat) (hN : 1 ≤ N) :
    ((LazyProxy.init f).forceTimes N).calls = 1 ∧
    ∀ k, LazyProxy.forceResult ((LazyProxy.init f).forceTimes k) = .ok (some v) := by
  have h1 : (LazyProxy.init f).ensureLoaded =
      (.ok (some v), ⟨f, some v, 1⟩) := by
    unfold LazyProxy.init LazyProxy.ensureLoaded
    simp [hf]
  have hres : ∀ m, (LazyProxy.init f).forceTimes (m + 1) = ⟨f, some v, 1⟩ := by
    intro m
    unfold LazyProxy.forceTimes
    rw [h1]
    exact LazyProxy.forceTimes_of_resolved _ v rfl m
  constructor
  · obtain ⟨m, rfl⟩ : ∃ m, N = m + 1 := ⟨N - 1, by omega⟩
    rw [hres m]
  · intro k
    cases k with
    | zero =>
      unfold LazyProxy.forceTimes LazyProxy.forceResult
      rw [h1]
    | succ m =>
      rw [hres m]
      unfold LazyProxy.forceResult
      rw [LazyProxy.ensureLoaded_of_resolved _ v rfl]

/-- Witness for C1's amended theorem at the concrete resolver returning 7,
forced twice, with the third force also inspected. -/
theorem force_once_on_nonNone_success_witness :
    ((LazyProxy.init sevenResolver).forceTimes 2).calls = 1 ∧
    LazyProxy.forceResult ((LazyProxy.init sevenResolver).forceTimes 3) =
      .ok (some 7) :=
  ⟨(force_once_on_nonNone_success sevenResolver 7 rfl 2 (by decide)).1,
   (force_once_on_nonNone_success sevenResolver 7 rfl 2 (by decide)).2 3⟩

/-- Claim C6: if the resolver raises when invoked by a forcing operation, the
failure propagates to the caller, the reference stays unresolved (the failure
is not cached), and the next forcing operation invokes the resolver again
(the invocation count rises on each of the two forces). -/
theorem failure_propagates_no_poison {E V : Type} (p : LazyProxy E V) (e : E)
    (h : p.target = none) (he : p.loader_func p.calls = .error e) :
    p.forceResult = .error e ∧
    ((p.ensureLoaded).2).target = none ∧
    ((p.ensureLoaded).2).calls = p.calls + 1 ∧
    ((((p.ensureLoaded).2).ensureLoaded).2).calls = p.calls + 2 := by
  have h1 : p.ensureLoaded = (.error e, { p with calls := p.calls + 1 }) := by
    unfold LazyProxy.ensureLoaded
    rw [h, he]
  refine ⟨?_, ?_, ?_, ?_⟩
  · unfold LazyProxy.forceResult
    rw [h1]
  · rw [h1]
    exact h
  · rw [h1]
  · rw [h1]
    show ((LazyProxy.ensureLoaded _).2).calls = p.calls + 2
    unfold LazyProxy.ensureLoaded
    simp only [h]
    cases p.loader_func (p.calls + 1) with
    | error e => rfl
    | ok t => rfl

/-- A resolver that raises the exception `3` on every invocation. -/
def failingResolver : Nat → Except Nat (Option Nat) := fun _ => .error 3

/-- The unresolved reference built over `failingResolver`. -/
def failingProxy : LazyProxy Nat Nat := LazyProxy.init failingResolver

/-- Witness for C6 at a concrete always-failing resolver. -/
theorem failure_propagates_no_poison_witness :
    failingProxy.forceResult = .error 3 ∧
    ((failingProxy.ensureLoaded).2).target = none ∧
    ((failingProxy.ensureLoaded).2).calls = failingProxy.calls + 1 ∧
    ((((failingProxy.ensureLoaded).2).ensureLoaded).2).calls =
      failingProxy.calls + 2 :=
  failure_propagates_no_poison failingProxy 3 rfl rfl

/-- Claim C10: since `Unresolved` is represented by the cached slot holding
`None`, a reference whose resolver returns Python `None` never becomes
resolved — each of `N` forces invokes the resolver again, and the
representation still reports the not-yet-loaded sentinel. -/
theorem none_result_never_resolves {E V : Type} (p : LazyProxy E V)
    (h : p.target = none) (hf : ∀ k, p.loader_func k = .ok none)
    (reprV : V → String) (N : Nat) :
    (p.forceTimes N).target = none ∧
    (p.forceTimes N).calls = p.calls + N ∧
    ((p.forceTimes N).reprOp reprV).1 = LazyProxy.sentinel := by
  induction N generalizing p with
  | zero =>
    refine ⟨h, rfl, ?_⟩
    show (p.reprOp reprV).1 = LazyProxy.sentinel
    unfold LazyProxy.reprOp
    rw [h]
  | succ n ih =>
    have h1 : p.ensureLoaded =
        (.ok none, { p with target := none, calls := p.calls + 1 }) := by
      unfold LazyProxy.ensureLoaded
      rw [h, hf p.calls]
    have hstep : p.forceTimes (n + 1) =
        LazyProxy.forceTimes { p with target := none, calls := p.calls + 1 } n := by
      show ((p.ensureLoaded).2).forceTimes n = _
      rw [h1]
    rw [hstep]
    obtain ⟨ih1, ih2, ih3⟩ :=
      ih { p with target := none, calls := p.calls + 1 } rfl (fun k => hf k)
    refine ⟨ih1, ?_, ih3⟩
    rw [ih2]
    show p.calls + 1 + n = p.calls + (n + 1)
    omega

/-- The unresolved reference built over `noneResolver`. -/
def noneProxy : LazyProxy Unit Nat := LazyProxy.init noneResolver

/-- A concrete rendering function for resolved targets. -/
def natRender : Nat → String := fun n => toString n

/-- Witness for C10 at the concrete `None`-returning resolver, forced twice. -/
theorem none_result_never_resolves_witness :
    (noneProxy.forceTimes 2).target = none ∧
    (noneProxy.forceTimes 2).calls = noneProxy.calls + 2 ∧
    ((noneProxy.forceTimes 2).reprOp natRender).1 = LazyProxy.sentinel :=
  none_result_never_resolves noneProxy rfl (fun _ => rfl) natRender 2

/-- A resolver that succeeds on every invocation with the non-`None` value 0. -/
def zeroResolver : Nat → Except Unit (Option Nat) := fun _ => .ok (some 0)

/-- A rendering function (`repr` on targets) that happens to produce exactly
the proxy's not-loaded sentinel text — legal for any Python object. -/
def sentinelRender : Nat → String := fun _ => LazyProxy.sentinel

/-- Claim C3, counterexample: for a resolved target whose own `repr` is the
sentinel text, the representation after resolution equals the unresolved
sentinel — they do not differ as claimed. -/
theorem repr_distinct_counterexample :
    ((((LazyProxy.init zeroResolver).ensureLoaded).2).target = some 0) ∧
    ((((LazyProxy.init zeroResolver).ensureLoaded).2).reprOp sentinelRender).1 =
      ((LazyProxy.init zeroResolver).reprOp sentinelRender).1 := by
  constructor
  · rfl
  · rfl

/-- Claim C3 (amended): requesting the representation or the textual form of
an unresolved reference returns the fixed sentinel and leaves the proxy
unchanged (no resolver invocation, state still unresolved); the sentinel
differs from the representation the reference yields after resolution
whenever the resolved target's own rendering is not the sentinel text. -/
theorem repr_non_forcing {E V : Type} (reprV strV : V → String)
    (p : LazyProxy E V) (h : p.target = none) :
    (p.reprOp reprV).1 = LazyProxy.sentinel ∧
    (p.reprOp reprV).2 = p ∧
    (p.strOp reprV strV).1 = LazyProxy.sentinel ∧
    (p.strOp reprV strV).2 = p ∧
    ∀ t : V, reprV t ≠ LazyProxy.sentinel →
      (LazyProxy.reprOp reprV { p with target := some t }).1 ≠
        (p.reprOp reprV).1 := by
  refine ⟨?_, rfl, ?_, rfl, ?_⟩
  · unfold LazyProxy.reprOp
    rw [h]
  · unfold LazyProxy.strOp LazyProxy.reprOp
    rw [h]
  · intro t ht
    unfold LazyProxy.reprOp
    rw [h]
    exact ht

/-- A rendering function whose output is never the sentinel at the inputs
used by the witnesses. -/
def valueRender : Nat → String := fun n => "value " ++ toString n

/-- Witness for C3's amended theorem at a concrete unresolved reference and a
concrete resolved target whose rendering is not the sentinel. -/
theorem repr_non_forcing_witness :
    ((LazyProxy.init zeroResolver).reprOp valueRender).1 = LazyProxy.sentinel ∧
    (LazyProxy.reprOp valueRender
        { LazyProxy.init zeroResolver with target := some 5 }).1 ≠
      ((LazyProxy.init zeroResolver).reprOp valueRender).1 :=
  ⟨(repr_non_forcing valueRender valueRender (LazyProxy.init zeroResolver) rfl).1,
   (repr_non_forcing valueRender valueRender (LazyProxy.init zeroResolver)
      rfl).2.2.2.2 5 (by decide)⟩

/-- Claim C4, counterexample: two constructions in the same process, with the
environment flag changed in between (`"0"` at the first, `"1"` at the
second), observe different flag values — the first reference is constructed
unresolved with zero resolver invocations, the second is resolved at
construction with one invocation.  `__init__` re-reads the environment on
every construction and never consults the process-start constant. -/
theorem eager_flag_counterexample :
    (LazyProxy.construct (some "0") sevenResolver).map (fun p => p.calls) =
      .ok 0 ∧
    (LazyProxy.construct (some "1") sevenResolver).map (fun p => p.calls) =
      .ok 1 ∧
    (LazyProxy.construct (some "0") sevenResolver).map (fun p => p.target) =
      .ok none ∧
    (LazyProxy.construct (some "1") sevenResolver).map (fun p => p.target) =
      .ok (some 7) := by
  refine ⟨rfl, rfl, rfl, rfl⟩

/-- Claim C4 (amended): the eager-mode flag is re-read from the execution
environment at each reference construction; a construction observes the
environment value current at that moment, so two constructions under
different current values behave differently (the process-start constant
`_EAGER_MODE` is not consulted by construction). -/
theorem construct_rereads_env {E V : Type} (f : Nat → Except E (Option V))
    (env env' : Option String)
    (h : env.getD "0" ≠ "1") (h' : env'.getD "0" = "1") :
    LazyProxy.construct env f = .ok (LazyProxy.init f) ∧
    LazyProxy.construct env' f =
      (match f 0 with
       | .error e => .error e
       | .ok t => .ok ⟨f, t, 1⟩) ∧
    LazyProxy.construct env f ≠ LazyProxy.construct env' f := by
  have h1 : LazyProxy.construct env f = .ok (LazyProxy.init f) := by
    unfold LazyProxy.construct
    rw [if_neg h]
  have h2 : LazyProxy.construct env' f =
      (match f 0 with
       | .error e => .error e
       | .ok t => .ok ⟨f, t, 1⟩) := by
    unfold LazyProxy.construct
    rw [if_pos h']
    unfold LazyProxy.init LazyProxy.ensureLoaded
    cases hf : f 0 with
    | error e => simp [hf]
    | ok t => simp [hf]
  refine ⟨h1, h2, ?_⟩
  rw [h1, h2]
  cases hf : f 0 with
  | error e =>
    intro hEq
    exact Except.noConfusion hEq
  | ok t =>
    intro hEq
    have hp : LazyProxy.init f = (⟨f, t, 1⟩ : LazyProxy E V) :=
      Except.ok.inj hEq
    have hc : (LazyProxy.init f).calls = (⟨f, t, 1⟩ : LazyProxy E V).calls :=
      congrArg LazyProxy.calls hp
    exact Nat.noConfusion hc

/-- Witness for C4's amended theorem at the concrete environments `"0"` and
`"1"` and the resolver returning 7. -/
theorem construct_rereads_env_witness :
    LazyProxy.construct (some "0") sevenResolver =
      .ok (LazyProxy.init sevenResolver) ∧
    LazyProxy.construct (some "1") sevenResolver =
      (match sevenResolver 0 with
       | .error e => .error e
       | .ok t => .ok ⟨sevenResolver, t, 1⟩) ∧
    LazyProxy.construct (some "0") sevenResolver ≠
      LazyProxy.construct (some "1") sevenResolver :=
  construct_rereads_env sevenResolver (some "0") (some "1") (by decide) rfl

/-! ## Claim theorems: the interceptor -/

/-- Unwatched root names are rejected without consulting the chain. -/
theorem find_spec_not_watched (lf : LazyFinder) (mp : List MetaPathEntry)
    (name : String) (h : rootPkg name ∉ lf.names) :
    lf.find_spec mp name = (.ok none, lf) := by
  unfold LazyFinder.find_spec
  rw [if_pos h]

/-- Claim C2: resolution returns "not handled" immediately when the top-level
segment is unwatched (for every chain, so no delegation can have occurred);
when the segment is watched and delegation finds a spec with a loader, the
returned spec's loader is wrapped in `LazyLoader` unless it is one already;
when delegation finds nothing, resolution returns "not handled". -/
theorem find_spec_watched_wraps (lf : LazyFinder) (mp : List MetaPathEntry)
    (name : String) :
    (rootPkg name ∉ lf.names → lf.find_spec mp name = (.ok none, lf)) ∧
    (∀ s l, rootPkg name ∈ lf.names → name ∉ lf.skip →
      delegate mp name = .ok (some s) → s.loader = some l →
      (lf.find_spec mp name).1 =
        .ok (some ⟨some (if l.isLazy then l else .lazyLoader l)⟩)) ∧
    (rootPkg name ∈ lf.names → name ∉ lf.skip → delegate mp name = .ok none →
      (lf.find_spec mp name).1 = .ok none) := by
  refine ⟨fun h => find_spec_not_watched lf mp name h, ?_, ?_⟩
  · rintro ⟨sl⟩ l hmem hsk hdel hl
    have hl' : sl = some l := hl
    subst hl'
    unfold LazyFinder.find_spec
    rw [if_neg (by simpa using hmem), if_neg hsk, hdel]
    cases hb : l.isLazy with
    | true => simp [wrapSpec, hb]
    | false => simp [wrapSpec, hb]
  · intro hmem hsk hdel
    unfold LazyFinder.find_spec
    rw [if_neg (by simpa using hmem), if_neg hsk, hdel]

/-- The watched set used by the interceptor witnesses. -/
def lfAlpha : LazyFinder := { names := {"alpha"}, skip := ∅ }

/-- An external finder that finds a spec with an ordinary (eager) loader. -/
def goodFinder : ExtFinder := ⟨fun _ => .found ⟨some (.plain 0)⟩⟩

/-- A chain holding the interceptor itself and one real finder. -/
def mpGood : List MetaPathEntry := [.selfFinder, .ext goodFinder]

/-- Witness for C2 at concrete names: the unwatched name `beta` is rejected,
the watched name `alpha.sub` comes back with a `LazyLoader`-wrapped loader,
and an empty chain yields "not handled". -/
theorem find_spec_watched_wraps_witness :
    lfAlpha.find_spec mpGood "beta" = (.ok none, lfAlpha) ∧
    (lfAlpha.find_spec mpGood "alpha.sub").1 =
      .ok (some ⟨some (if (Loader.plain 0).isLazy then .plain 0
                       else .lazyLoader (.plain 0))⟩) ∧
    (lfAlpha.find_spec [] "alpha.sub").1 = .ok none :=
  ⟨(find_spec_watched_wraps lfAlpha mpGood "beta").1 (by decide),
   (find_spec_watched_wraps lfAlpha mpGood "alpha.sub").2.1
     ⟨some (.plain 0)⟩ (.plain 0) (by decide) (by decide) rfl rfl,
   (find_spec_watched_wraps lfAlpha [] "alpha.sub").2.2
     (by decide) (by decide) rfl⟩

/-- Claim C9: the recursion guard is restored on every exit path of
`find_spec` — early rejection, "not found", success, and a propagating
delegation failure all leave `_skip` exactly as it was before the call. -/
theorem guard_restored (lf : LazyFinder) (mp : List MetaPathEntry)
    (name : String) :
    ((lf.find_spec mp name).2).skip = lf.skip := by
  unfold LazyFinder.find_spec
  by_cases h1 : rootPkg name ∉ lf.names
  · rw [if_pos h1]
  · rw [if_neg h1]
    by_cases h2 : name ∈ lf.skip
    · rw [if_pos h2]
    · rw [if_neg h2]
      cases hd : delegate mp name with
      | error e => simp [Finset.erase_insert h2]
      | ok o =>
        cases o with
        | none => simp [Finset.erase_insert h2]
        | some s => simp [Finset.erase_insert h2]

/-- Delegation never produces an `ImportError`: the loop swallows each
`ImportError` raised by an individual finder and continues. -/
theorem delegate_no_importError (mp : List MetaPathEntry) (name : String) :
    delegate mp name ≠ .error .importError := by
  induction mp with
  | nil => intro h; exact Except.noConfusion h
  | cons entry rest ih =>
    cases entry with
    | selfFinder => exact ih
    | ext f =>
      unfold delegate
      cases hb : f.behavior name with
      | found s => intro h; exact Except.noConfusion h
      | notFound => exact ih
      | noFindSpec => exact ih
      | raises e =>
        cases e with
        | importError => exact ih
        | other m =>
          intro h
          have := Except.error.inj h
          exact PyExc.noConfusion this

/-- Claim C5 (amended): an `ImportError` raised by an individual finder
during delegation is swallowed — the chain behaves as if that finder were
absent — and no `ImportError` ever propagates out of `find_spec`; failures
other than `ImportError` are not swallowed (see the counterexample). -/
theorem import_error_swallowed (lf : LazyFinder) (f : ExtFinder)
    (mp : List MetaPathEntry) (name : String)
    (hf : f.behavior name = .raises .importError) :
    lf.find_spec (.ext f :: mp) name = lf.find_spec mp name ∧
    ∀ mp' : List MetaPathEntry, (lf.find_spec mp' name).1 ≠ .error .importError := by
  constructor
  · have hd : delegate (.ext f :: mp) name = delegate mp name := by
      simp only [delegate, hf]
    unfold LazyFinder.find_spec
    rw [hd]
  · intro mp'
    unfold LazyFinder.find_spec
    by_cases h1 : rootPkg name ∉ lf.names
    · rw [if_pos h1]
      intro h
      exact Except.noConfusion h
    · rw [if_neg h1]
      by_cases h2 : name ∈ lf.skip
      · rw [if_pos h2]
        intro h
        exact Except.noConfusion h
      · rw [if_neg h2]
        cases hd : delegate mp' name with
        | error e =>
          simp only
          intro h
          have he : e = .importError := Except.error.inj h
          exact delegate_no_importError mp' name (he ▸ hd)
        | ok o =>
          cases o with
          | none => intro h; exact Except.noConfusion h
          | some s => intro h; exact Except.noConfusion h

/-- An external finder whose `find_spec` raises a non-`ImportError`. -/
def boomFinder : ExtFinder := ⟨fun _ => .raises (.other "boom")⟩

/-- A chain in which the failing finder precedes a finder that would find the
module. -/
def mpBoom : List MetaPathEntry := [.ext boomFinder, .ext goodFinder]

/-- Witness for C5's amended theorem: a finder raising `ImportError` in front
of the chain changes nothing. -/
theorem import_error_swallowed_witness :
    lfAlpha.find_spec (.ext ⟨fun _ => .raises .importError⟩ :: mpGood) "alpha" =
      lfAlpha.find_spec mpGood "alpha" ∧
    ∀ mp' : List MetaPathEntry,
      (lfAlpha.find_spec mp' "alpha").1 ≠ .error .importError :=
  import_error_swallowed lfAlpha ⟨fun _ => .raises .importError⟩ mpGood "alpha" rfl

/-- Claim C5, counterexample: a finder that raises a failure other than
`ImportError` (`except ImportError` is the only handler in the loop) makes
`find_spec` propagate that failure — delegation does not continue to the next
finder, which here would have found the module. -/
theorem delegation_failure_propagates_counterexample :
    (lfAlpha.find_spec mpBoom "alpha").1 = .error (.other "boom") ∧
    delegate [.ext goodFinder] "alpha" = .ok (some ⟨some (.plain 0)⟩) := by
  constructor
  · rfl
  · rfl

/-! ## Claim theorems: the registry -/

/-- Once a finder is installed, a registration call only merges names. -/
theorem speed_up_modules_installed (st : Registry) (f : LazyFinder)
    (ms : List String) (h : st.installed = some f) :
    speed_up_modules st ms =
      { st with installed := some { f with names :=
          f.names ∪ (ms.filter (fun x => decide (x ∉ unsafeSet))).toFinset } } := by
  unfold speed_up_modules
  rw [h]

/-- Once a finder is installed, no later registration touches the chain. -/
theorem registerAll_metaPath (calls : List (List String)) (st : Registry)
    (h : st.installed.isSome) : (registerAll st calls).metaPath = st.metaPath := by
  induction calls generalizing st with
  | nil => rfl
  | cons ms rest ih =>
    obtain ⟨f, hf⟩ := Option.isSome_iff_exists.mp h
    show (registerAll (speed_up_modules st ms) rest).metaPath = st.metaPath
    rw [speed_up_modules_installed st f ms hf]
    rw [ih _ (by simp)]

/-- Claim C7: across any nonempty sequence of registration calls the chain
holds the single interceptor inserted at its front on the first call and is
never touched again; each later call merges the filtered names into the
installed finder's watched set by union, so re-registering an
already-watched name leaves the watched set unchanged. -/
theorem registry_single_install (mp0 : List MetaPathEntry)
    (calls : List (List String)) (st : Registry) (f : LazyFinder)
    (ms : List String) (m : String)
    (hc : calls ≠ []) (hst : st.installed = some f) (hm : m ∈ f.names) :
    (registerAll ⟨none, mp0⟩ calls).metaPath = .selfFinder :: mp0 ∧
    (speed_up_modules st ms).metaPath = st.metaPath ∧
    (speed_up_modules st ms).installed =
      some { f with names :=
        f.names ∪ (ms.filter (fun x => decide (x ∉ unsafeSet))).toFinset } ∧
    watchedOf (speed_up_modules st [m]) = f.names := by
  refine ⟨?_, ?_, ?_, ?_⟩
  · obtain ⟨ms0, rest, rfl⟩ : ∃ ms0 rest, calls = ms0 :: rest := by
      cases calls with
      | nil => exact absurd rfl hc
      | cons a b => exact ⟨a, b, rfl⟩
    show (registerAll (speed_up_modules ⟨none, mp0⟩ ms0) rest).metaPath = _
    rw [registerAll_metaPath rest _ (by simp [speed_up_modules])]
    rfl
  · rw [speed_up_modules_installed st f ms hst]
  · rw [speed_up_modules_installed st f ms hst]
  · rw [speed_up_modules_installed st f [m] hst]
    show f.names ∪ ([m].filter (fun x => decide (x ∉ unsafeSet))).toFinset = f.names
    by_cases hu : m ∈ unsafeSet
    · have hfil : [m].filter (fun x => decide (x ∉ unsafeSet)) = [] := by
        simp [List.filter, hu]
      rw [hfil]
      simp
    · have hfil : [m].filter (fun x => decide (x ∉ unsafeSet)) = [m] := by
        simp [List.filter, hu]
      rw [hfil]
      rw [Finset.union_eq_left]
      simpa using hm

/-- A registry state with the interceptor already installed. -/
def regSt : Registry := ⟨some lfAlpha, [.selfFinder]⟩

/-- Witness for C7 at a concrete first registration of `alpha`, a later
merge of `gamma`, and a re-registration of the already-watched `alpha`. -/
theorem registry_single_install_witness :
    (registerAll ⟨none, []⟩ [["alpha"]]).metaPath = .selfFinder :: [] ∧
    (speed_up_modules regSt ["gamma"]).metaPath = regSt.metaPath ∧
    (speed_up_modules regSt ["gamma"]).installed =
      some { lfAlpha with names := lfAlpha.names ∪
        (["gamma"].filter (fun x => decide (x ∉ unsafeSet))).toFinset } ∧
    watchedOf (speed_up_modules regSt ["alpha"]) = lfAlpha.names :=
  registry_single_install [] [["alpha"]] regSt lfAlpha ["gamma"] "alpha"
    (by simp) rfl (by decide)

/-- One registration step never adds a denylisted name to the watched set. -/
theorem not_watched_step (m : String) (hm : m ∈ unsafeSet) (st : Registry)
    (ms : List String) (h : m ∉ watchedOf st) :
    m ∉ watchedOf (speed_up_modules st ms) := by
  have hfil : m ∉ (ms.filter (fun x => decide (x ∉ unsafeSet))).toFinset := by
    simp [List.mem_toFinset, List.mem_filter, hm]
  unfold speed_up_modules
  cases hst : st.installed with
  | none =>
    unfold watchedOf
    simpa using hfil
  | some f =>
    have h' : m ∉ f.names := by
      unfold watchedOf at h
      rw [hst] at h
      exact h
    unfold watchedOf
    simp only [Finset.mem_union]
    rintro (hc | hc)
    · exact h' hc
    · exact hfil hc

/-- No sequence of registrations ever adds a denylisted name. -/
theorem not_watched_registerAll (m : String) (hm : m ∈ unsafeSet)
    (calls : List (List String)) (st : Registry) (h : m ∉ watchedOf st) :
    m ∉ watchedOf (registerAll st calls) := by
  induction calls generalizing st with
  | nil => exact h
  | cons ms rest ih => exact ih _ (not_watched_step m hm st ms h)

/-- Each denylisted name is a bare top-level name: its root segment is
itself. -/
theorem rootPkg_denylisted (m : String) (hm : m ∈ unsafeSet) : rootPkg m = m := by
  have hcases : m = "numpy" ∨ m = "torch" ∨ m = "pydantic" := by
    simpa [unsafeSet, Finset.mem_insert, Finset.mem_singleton] using hm
  rcases hcases with rfl | rfl | rfl <;> decide

/-- Claim C8: a denylisted name is silently filtered out of every
registration call, so it never enters the watched set, and the installed
interceptor answers "not handled" for it — its resolution falls through to
the ordinary eager path. -/
theorem denylist_immunity (mp0 : List MetaPathEntry)
    (calls : List (List String)) (m : String) (hm : m ∈ unsafeSet)
    (mp : List MetaPathEntry) :
    m ∉ watchedOf (registerAll ⟨none, mp0⟩ calls) ∧
    ∀ f : LazyFinder, (registerAll ⟨none, mp0⟩ calls).installed = some f →
      f.find_spec mp m = (.ok none, f) := by
  have h1 : m ∉ watchedOf (registerAll ⟨none, mp0⟩ calls) :=
    not_watched_registerAll m hm calls ⟨none, mp0⟩ (by simp [watchedOf])
  refine ⟨h1, ?_⟩
  intro f hf
  apply find_spec_not_watched
  rw [rootPkg_denylisted m hm]
  unfold watchedOf at h1
  rw [hf] at h1
  exact h1

/-- Witness for C8: registering `["numpy", "alpha"]` from a clean state
leaves only `alpha` watched; `numpy` stays unwatched and is rejected by the
installed finder. -/
theorem denylist_immunity_witness :
    "numpy" ∉ watchedOf (registerAll ⟨none, []⟩ [["numpy", "alpha"]]) ∧
    LazyFinder.find_spec ⟨["alpha"].toFinset, ∅⟩ [] "numpy" =
      (.ok none, ⟨["alpha"].toFinset, ∅⟩) :=
  ⟨(denylist_immunity [] [["numpy", "alpha"]] "numpy" (by decide) []).1,
   (denylist_immunity [] [["numpy", "alpha"]] "numpy" (by decide) []).2
     ⟨["alpha"].toFinset, ∅⟩ rfl⟩

end CliSpeeder
